import Mathlib

/-!
Shallow embedding of `src/vga_buffer.rs`, a VGA text-mode buffer driver:
a 25×80 grid of two-byte cells (character byte + packed color byte), a
`Writer` holding the cursor column, the current color and the grid, with
byte/string emission, line-feed handling and scrolling.

Machine integers (`u8`, `usize`) are modelled as `Nat`, with `% 256`
inserted exactly where the Rust code performs a `u8` operation that can
wrap.  The memory-mapped `Buffer` is modelled as a total function from
row/column indices to cells; `Volatile::write` is a pointwise functional
update and `Volatile::read` is function application.  `&mut self` methods
become state-passing functions `Writer → ... → Writer`.
-/

set_option maxHeartbeats 1000000

namespace VgaBuffer

/-- The sixteen VGA colors: `enum Color` with `#[repr(u8)]` and explicit
discriminants 0–15. -/
inductive Color where
  | Black
  | Blue
  | Green
  | Cyan
  | Red
  | Magenta
  | Brown
  | LightGray
  | DarkGray
  | LightBlue
  | LightGreen
  | LightCyan
  | LightRed
  | Pink
  | Yellow
  | White
  deriving DecidableEq, Repr, Fintype

/-- Discriminant of each `Color` variant, the value of `color as u8`. -/
def Color.code : Color → Nat
  | .Black => 0
  | .Blue => 1
  | .Green => 2
  | .Cyan => 3
  | .Red => 4
  | .Magenta => 5
  | .Brown => 6
  | .LightGray => 7
  | .DarkGray => 8
  | .LightBlue => 9
  | .LightGreen => 10
  | .LightCyan => 11
  | .LightRed => 12
  | .Pink => 13
  | .Yellow => 14
  | .White => 15

/-- The packed color byte: `struct ColorCode(u8)`. -/
structure ColorCode where
  val : Nat
  deriving DecidableEq, Repr

/-- The constructor `ColorCode::new`: computes
`(background as u8) << 4 | (foreground as u8)` in `u8` arithmetic, so the
shift is reduced `% 256` as a `u8` shift would be. -/
def ColorCode.new (foreground background : Color) : ColorCode :=
  ⟨((background.code <<< 4) % 256) ||| (foreground.code % 256)⟩

/-- One on-screen cell: `struct ScreenChar { ascii_character: u8,
color_code: ColorCode }`. -/
structure ScreenChar where
  ascii_character : Nat
  color_code : ColorCode
  deriving DecidableEq, Repr

/-- `BUFFER_HEIGHT`: number of rows of the VGA text grid. -/
def BUFFER_HEIGHT : Nat := 25

/-- `BUFFER_WIDTH`: number of columns of the VGA text grid. -/
def BUFFER_WIDTH : Nat := 80

/-- The memory-mapped grid `struct Buffer { chars: [[Volatile<ScreenChar>;
BUFFER_WIDTH]; BUFFER_HEIGHT] }`, modelled as a total function from the
row and column index to the stored cell. -/
structure Buffer where
  chars : Nat → Nat → ScreenChar

/-- `Volatile::write` at `chars[row][col]`: pointwise functional update of
the grid. -/
def Buffer.write (b : Buffer) (row col : Nat) (v : ScreenChar) : Buffer :=
  ⟨fun r c => if r = row ∧ c = col then v else b.chars r c⟩

/-- The `Writer`: cursor column on the last row, current color, and the
(exclusively owned) grid. -/
structure Writer where
  column_position : Nat
  color_code : ColorCode
  buffer : Buffer

/-- `Writer::clear_row`: writes the blank cell (space character `b' '`,
current color) into every column `0..BUFFER_WIDTH` of `row`. -/
def Writer.clear_row (w : Writer) (row : Nat) : Writer :=
  { w with
    buffer := (List.range BUFFER_WIDTH).foldl
      (fun b col => b.write row col ⟨32, w.color_code⟩) w.buffer }

/-- `Writer::new_line` (the scroll): for each `row in 1..BUFFER_HEIGHT`
and each `col in 0..BUFFER_WIDTH`, reads `chars[row][col]` and writes it
to `chars[row-1][col]`; then clears the last row and resets
`column_position` to 0. -/
def Writer.new_line (w : Writer) : Writer :=
  let w1 : Writer :=
    { w with
      buffer := (List.range' 1 (BUFFER_HEIGHT - 1)).foldl
        (fun b row => (List.range BUFFER_WIDTH).foldl
          (fun b2 col => b2.write (row - 1) col (b2.chars row col)) b)
        w.buffer }
  let w2 := w1.clear_row (BUFFER_HEIGHT - 1)
  { w2 with column_position := 0 }

/-- `Writer::write_byte`: on `b'\n'` calls `new_line`; otherwise, if
`column_position >= BUFFER_WIDTH` first calls `new_line`, then writes
`ScreenChar { ascii_character: byte, color_code }` at
`(BUFFER_HEIGHT - 1, column_position)` and increments `column_position`. -/
def Writer.write_byte (w : Writer) (byte : Nat) : Writer :=
  if byte = 10 then
    w.new_line
  else
    let w1 := if BUFFER_WIDTH ≤ w.column_position then w.new_line else w
    { w1 with
      buffer := w1.buffer.write (BUFFER_HEIGHT - 1) w1.column_position
        ⟨byte, w1.color_code⟩,
      column_position := w1.column_position + 1 }

/-- `Writer::write_string`: for each byte of the input, bytes in
`0x20..=0x7e` and `b'\n'` are forwarded to `write_byte` unchanged, every
other byte is replaced by the placeholder `0xfe`. -/
def Writer.write_string : Writer → List Nat → Writer
  | w, [] => w
  | w, b :: rest =>
    if (0x20 ≤ b ∧ b ≤ 0x7e) ∨ b = 10 then
      (w.write_byte b).write_string rest
    else
      (w.write_byte 0xfe).write_string rest

/-- The `fmt::Write` impl: `write_str` calls `write_string` and returns
`Ok(())`.  `fmt::Result = Result<(), fmt::Error>` is modelled as
`Except Unit Unit`. -/
def Writer.write_str (w : Writer) (s : List Nat) : Writer × Except Unit Unit :=
  (w.write_string s, Except.ok ())

/-- Instrumentation: how many times `write_byte` invokes `new_line`
(i.e. how many scrolls it performs), read off the two branches of
`write_byte` that call `new_line`. -/
def Writer.scrollCount (w : Writer) (byte : Nat) : Nat :=
  if byte = 10 then 1
  else if BUFFER_WIDTH ≤ w.column_position then 1
  else 0

/-- Instrumentation: total number of scrolls performed by
`write_string`, accumulating `scrollCount` over the (substituted) bytes
actually passed to `write_byte`. -/
def Writer.write_string_scrolls : Writer → List Nat → Nat
  | _, [] => 0
  | w, b :: rest =>
    if (0x20 ≤ b ∧ b ≤ 0x7e) ∨ b = 10 then
      w.scrollCount b + (w.write_byte b).write_string_scrolls rest
    else
      w.scrollCount 0xfe + (w.write_byte 0xfe).write_string_scrolls rest

/-- The `(row, col)` index pairs at which `clear_row` accesses the grid. -/
def clear_row_accesses (row : Nat) : List (Nat × Nat) :=
  (List.range BUFFER_WIDTH).map (fun col => (row, col))

/-- The `(row, col)` index pairs at which `new_line` accesses the grid:
for each `row in 1..BUFFER_HEIGHT` and `col in 0..BUFFER_WIDTH` a read at
`(row, col)` and a write at `(row - 1, col)`, then the `clear_row`
accesses on the last row. -/
def new_line_accesses : List (Nat × Nat) :=
  ((List.range' 1 (BUFFER_HEIGHT - 1)).flatMap (fun row =>
    (List.range BUFFER_WIDTH).flatMap (fun col => [(row, col), (row - 1, col)])))
  ++ clear_row_accesses (BUFFER_HEIGHT - 1)

/-- The `(row, col)` index pairs at which `write_byte` accesses the grid:
the `new_line` accesses when it scrolls, plus the single write at
`(BUFFER_HEIGHT - 1, column_position)` for a non-line-feed byte, where
`column_position` is 0 if a scroll just happened. -/
def Writer.write_byte_accesses (w : Writer) (byte : Nat) : List (Nat × Nat) :=
  if byte = 10 then
    new_line_accesses
  else if BUFFER_WIDTH ≤ w.column_position then
    new_line_accesses ++ [(BUFFER_HEIGHT - 1, 0)]
  else
    [(BUFFER_HEIGHT - 1, w.column_position)]

/-- A grid of blank cells, used as a concrete initial grid content in
witnesses. -/
def blankBuffer : Buffer :=
  ⟨fun _ _ => ⟨32, ColorCode.new Color.Yellow Color.Black⟩⟩

/-- The initial state of the global `WRITER` singleton: column 0, color
`ColorCode::new(Yellow, Black)`, and whatever the hardware buffer at
`0xb8000` holds at startup (parametrized here by `b`). -/
def WRITER (b : Buffer) : Writer :=
  { column_position := 0
    color_code := ColorCode.new Color.Yellow Color.Black
    buffer := b }

/-- A concrete writer whose cursor sits exactly at the width, as it is
after 80 printable bytes have been written on a fresh line. -/
def writerAtWidth : Writer :=
  { column_position := BUFFER_WIDTH
    color_code := ColorCode.new Color.Yellow Color.Black
    buffer := blankBuffer }

/-- A concrete writer whose cursor sits at the last in-range column 79. -/
def writerAt79 : Writer :=
  { column_position := 79
    color_code := ColorCode.new Color.Yellow Color.Black
    buffer := blankBuffer }

/-- Reading a cell after a single `Volatile::write`. -/
@[simp] theorem Buffer.write_chars (b : Buffer) (row col : Nat) (v : ScreenChar)
    (r c : Nat) :
    (b.write row col v).chars r c = if r = row ∧ c = col then v else b.chars r c :=
  rfl

/-- Characterization of the `clear_row` loop: writing `v` to the first `n`
columns of `row`. -/
theorem clearFold_chars (b : Buffer) (row : Nat) (v : ScreenChar) (n : Nat) :
    ∀ r c, (((List.range n).foldl (fun bb col => bb.write row col v) b).chars r c)
      = if r = row ∧ c < n then v else b.chars r c := by
  induction n with
  | zero => simp
  | succ n ih =>
    intro r c
    rw [List.range_succ, List.foldl_append]
    simp only [List.foldl_cons, List.foldl_nil, Buffer.write_chars, ih]
    split_ifs <;> first | rfl | omega

/-- Characterization of the inner copy loop of `new_line`: copying the
first `n` cells of `row` into `row - 1`. -/
theorem copyFold_chars (b : Buffer) (row : Nat) (hrow : 1 ≤ row) (n : Nat) :
    ∀ r c, (((List.range n).foldl
        (fun b2 col => b2.write (row - 1) col (b2.chars row col)) b).chars r c)
      = if r = row - 1 ∧ c < n then b.chars row c else b.chars r c := by
  induction n with
  | zero => simp
  | succ n ih =>
    intro r c
    rw [List.range_succ, List.foldl_append]
    simp only [List.foldl_cons, List.foldl_nil, Buffer.write_chars, ih]
    split_ifs <;> (try rfl) <;> (try omega) <;>
      (first
        | (have hc : c = n := by omega
           rw [hc])
        | omega)

/-- Characterization of the outer loop of `new_line`: folding the row
copy over rows `a, a+1, ..., a+k-1` shifts every copied row up by one. -/
theorem scrollFold_chars (k : Nat) :
    ∀ (a : Nat), 1 ≤ a → ∀ (b : Buffer) (r c : Nat),
    (((List.range' a k).foldl (fun bb row => (List.range BUFFER_WIDTH).foldl
        (fun b2 col => b2.write (row - 1) col (b2.chars row col)) bb) b).chars r c)
      = if a ≤ r + 1 ∧ r + 1 < a + k ∧ c < BUFFER_WIDTH then b.chars (r + 1) c
        else b.chars r c := by
  induction k with
  | zero =>
    intro a ha b r c
    simp only [List.range', List.foldl_nil]
    rw [if_neg]
    omega
  | succ k ih =>
    intro a ha b r c
    simp only [List.range', List.foldl_cons]
    rw [ih (a + 1) (by omega)]
    simp only [copyFold_chars b a ha BUFFER_WIDTH]
    split_ifs <;> (try rfl) <;> (try omega) <;>
      (first
        | (have ha1 : a = r + 1 := by omega
           rw [ha1])
        | omega)

/-- Reading a cell after `clear_row`. -/
theorem clear_row_chars (w : Writer) (row : Nat) (r c : Nat) :
    (w.clear_row row).buffer.chars r c
      = if r = row ∧ c < BUFFER_WIDTH then ⟨32, w.color_code⟩
        else w.buffer.chars r c :=
  clearFold_chars w.buffer row ⟨32, w.color_code⟩ BUFFER_WIDTH r c

/-- The scroll leaves the cursor at column 0. -/
theorem new_line_column (w : Writer) : (w.new_line).column_position = 0 := rfl

/-- The scroll does not change the current color. -/
theorem new_line_color (w : Writer) : (w.new_line).color_code = w.color_code := rfl

/-- Reading a cell after a scroll: the last row is blank, every row that
has a row below it (within the width) took that row's contents, and
out-of-range positions are untouched. -/
theorem new_line_chars (w : Writer) (r c : Nat) :
    (w.new_line).buffer.chars r c
      = if r = BUFFER_HEIGHT - 1 ∧ c < BUFFER_WIDTH then ⟨32, w.color_code⟩
        else if r + 1 < BUFFER_HEIGHT ∧ c < BUFFER_WIDTH then w.buffer.chars (r + 1) c
        else w.buffer.chars r c := by
  show (Writer.clear_row _ _).buffer.chars r c = _
  rw [clear_row_chars]
  rw [scrollFold_chars (BUFFER_HEIGHT - 1) 1 (by omega)]
  show (if r = BUFFER_HEIGHT - 1 ∧ c < BUFFER_WIDTH then (⟨32, w.color_code⟩ : ScreenChar)
    else if 1 ≤ r + 1 ∧ r + 1 < 1 + (BUFFER_HEIGHT - 1) ∧ c < BUFFER_WIDTH
      then w.buffer.chars (r + 1) c
    else w.buffer.chars r c) = _
  split_ifs <;> first | rfl | omega

/-- A line-feed byte just scrolls. -/
theorem write_byte_newline (w : Writer) : w.write_byte 10 = w.new_line := by
  simp [Writer.write_byte]

/-- A non-line-feed byte written while the column is in range is placed
at the cursor and advances the column. -/
theorem write_byte_no_wrap (w : Writer) (b : Nat) (hb : b ≠ 10)
    (hcol : w.column_position < BUFFER_WIDTH) :
    w.write_byte b = { w with
      buffer := w.buffer.write (BUFFER_HEIGHT - 1) w.column_position ⟨b, w.color_code⟩,
      column_position := w.column_position + 1 } := by
  simp [Writer.write_byte, hb, Nat.not_le.mpr hcol]

/-- A non-line-feed byte written while the column is at (or past) the
width first scrolls, then is placed at column 0 of the last row. -/
theorem write_byte_wrap (w : Writer) (b : Nat) (hb : b ≠ 10)
    (hcol : BUFFER_WIDTH ≤ w.column_position) :
    w.write_byte b = { w.new_line with
      buffer := (w.new_line).buffer.write (BUFFER_HEIGHT - 1) 0 ⟨b, w.color_code⟩,
      column_position := 1 } := by
  simp [Writer.write_byte, hb, hcol]
  constructor
  · rw [new_line_column]
  · rw [new_line_column, new_line_color]

/-- The cell actually stored by `write_byte` for a non-line-feed byte:
exactly the byte passed in, with the current color, at the last row and
the (possibly wrapped) cursor column. -/
theorem write_byte_stores (w : Writer) (b : Nat) (hb : b ≠ 10) :
    (w.write_byte b).buffer.chars (BUFFER_HEIGHT - 1)
        (if BUFFER_WIDTH ≤ w.column_position then 0 else w.column_position)
      = ⟨b, w.color_code⟩ := by
  by_cases h : BUFFER_WIDTH ≤ w.column_position
  · rw [if_pos h, write_byte_wrap w b hb h]
    simp
  · rw [if_neg h, write_byte_no_wrap w b hb (Nat.lt_of_not_le h)]
    simp

/-- Writing a list of printable bytes that fits in the space remaining on
the line: no scroll happens, each byte lands in order at the cursor on the
last row with the current color, the column advances by the length, and
every other cell is untouched. -/
theorem write_string_printable (bs : List Nat) :
    ∀ w : Writer,
    (∀ x ∈ bs, 0x20 ≤ x ∧ x ≤ 0x7e) →
    w.column_position + bs.length ≤ BUFFER_WIDTH →
    (w.write_string bs).column_position = w.column_position + bs.length
  ∧ (w.write_string bs).color_code = w.color_code
  ∧ w.write_string_scrolls bs = 0
  ∧ (∀ i, i < bs.length →
      (w.write_string bs).buffer.chars (BUFFER_HEIGHT - 1) (w.column_position + i)
        = ⟨bs.getD i 0, w.color_code⟩)
  ∧ (∀ r c, ¬ (r = BUFFER_HEIGHT - 1 ∧ w.column_position ≤ c
        ∧ c < w.column_position + bs.length) →
      (w.write_string bs).buffer.chars r c = w.buffer.chars r c) := by
  induction bs with
  | nil =>
    intro w _ _
    refine ⟨by simp [Writer.write_string], by simp [Writer.write_string],
      by simp [Writer.write_string_scrolls], ?_, ?_⟩
    · intro i hi
      exact absurd hi (by simp)
    · intro r c _
      simp [Writer.write_string]
  | cons b rest ih =>
    intro w hb hlen
    have hb0 := hb b (List.mem_cons_self b rest)
    have hbne : b ≠ 10 := by omega
    have hcol : w.column_position < BUFFER_WIDTH := by
      simp only [List.length_cons] at hlen
      omega
    have hws : w.write_string (b :: rest) = (w.write_byte b).write_string rest := by
      simp only [Writer.write_string]
      rw [if_pos (Or.inl hb0)]
    have hsc : w.write_string_scrolls (b :: rest)
        = w.scrollCount b + (w.write_byte b).write_string_scrolls rest := by
      simp only [Writer.write_string_scrolls]
      rw [if_pos (Or.inl hb0)]
    have hwb := write_byte_no_wrap w b hbne hcol
    have hcol' : (w.write_byte b).column_position = w.column_position + 1 := by
      rw [hwb]
    have hcolor' : (w.write_byte b).color_code = w.color_code := by
      rw [hwb]
    have hchars' : ∀ r c, (w.write_byte b).buffer.chars r c
        = if r = BUFFER_HEIGHT - 1 ∧ c = w.column_position then ⟨b, w.color_code⟩
          else w.buffer.chars r c := by
      intro r c
      rw [hwb]
      rfl
    obtain ⟨ih1, ih2, ih3, ih4, ih5⟩ := ih (w.write_byte b)
      (fun x hx => hb x (List.mem_cons_of_mem b hx))
      (by rw [hcol']; simp only [List.length_cons] at hlen; omega)
    refine ⟨?_, ?_, ?_, ?_, ?_⟩
    · rw [hws, ih1, hcol', List.length_cons]
      omega
    · rw [hws, ih2, hcolor']
    · rw [hsc, ih3, Writer.scrollCount, if_neg hbne, if_neg (Nat.not_le.mpr hcol)]
    · intro i hi
      rw [hws]
      cases i with
      | zero =>
        rw [ih5 (BUFFER_HEIGHT - 1) (w.column_position + 0) (by rw [hcol']; omega),
          hchars', if_pos ⟨rfl, by omega⟩]
        simp
      | succ i =>
        have hidx : w.column_position + (i + 1) = (w.write_byte b).column_position + i := by
          rw [hcol']
          omega
        rw [hidx, ih4 i (by simp only [List.length_cons] at hi; omega), hcolor']
        simp
    · intro r c hrc
      rw [hws, ih5 r c (by rw [hcol']; simp only [List.length_cons] at hrc; omega),
        hchars', if_neg (by simp only [List.length_cons] at hrc; omega)]

/-- Writing a concatenation writes the first list and then the second. -/
theorem write_string_append (l1 l2 : List Nat) :
    ∀ w : Writer, w.write_string (l1 ++ l2) = (w.write_string l1).write_string l2 := by
  induction l1 with
  | nil => intro w; rfl
  | cons b rest ih =>
    intro w
    simp only [List.cons_append, Writer.write_string]
    split_ifs <;> exact ih _

/-- Scroll counting over a concatenation splits accordingly. -/
theorem write_string_scrolls_append (l1 l2 : List Nat) :
    ∀ w : Writer, w.write_string_scrolls (l1 ++ l2)
      = w.write_string_scrolls l1 + (w.write_string l1).write_string_scrolls l2 := by
  induction l1 with
  | nil =>
    intro w
    simp [Writer.write_string_scrolls, Writer.write_string]
  | cons b rest ih =>
    intro w
    simp only [List.cons_append, Writer.write_string_scrolls, Writer.write_string,
      List.append_eq]
    split_ifs <;> (rw [ih]; omega)

/-- The column stays at most the width across a single `write_byte`. -/
theorem column_le_width_write_byte (w : Writer) (b : Nat)
    (h : w.column_position ≤ BUFFER_WIDTH) :
    (w.write_byte b).column_position ≤ BUFFER_WIDTH := by
  by_cases hb : b = 10
  · rw [hb, write_byte_newline, new_line_column]
    exact Nat.zero_le _
  · by_cases hc : BUFFER_WIDTH ≤ w.column_position
    · rw [write_byte_wrap w b hb hc]
      show 1 ≤ BUFFER_WIDTH
      decide
    · rw [write_byte_no_wrap w b hb (Nat.lt_of_not_le hc)]
      show w.column_position + 1 ≤ BUFFER_WIDTH
      omega

/-- The column stays at most the width across `write_string`. -/
theorem column_le_width_write_string (s : List Nat) :
    ∀ w : Writer, w.column_position ≤ BUFFER_WIDTH →
    (w.write_string s).column_position ≤ BUFFER_WIDTH := by
  induction s with
  | nil => intro w h; exact h
  | cons b rest ih =>
    intro w h
    simp only [Writer.write_string]
    split_ifs
    · exact ih _ (column_le_width_write_byte w b h)
    · exact ih _ (column_le_width_write_byte w 0xfe h)

/-- C1: when the column equals the width (80) and the byte is not a
line feed, `write_byte` performs exactly one scroll, resets the column to
0, and places the byte at (last row, column 0), leaving the column at 1;
consequently writing exactly 80 printable bytes from column 0 followed by
one more printable byte performs exactly one scroll in total and places
the extra byte at column 0 of the last row. -/
theorem write_byte_at_width_scrolls_once :
    (∀ (w : Writer) (b : Nat), w.column_position = BUFFER_WIDTH → b ≠ 10 →
        w.scrollCount b = 1
      ∧ w.write_byte b = { w.new_line with
          buffer := (w.new_line).buffer.write (BUFFER_HEIGHT - 1) 0 ⟨b, w.color_code⟩,
          column_position := 1 })
  ∧ (∀ (w : Writer) (bs : List Nat) (extra : Nat),
        w.column_position = 0 → bs.length = BUFFER_WIDTH →
        (∀ x ∈ bs, 0x20 ≤ x ∧ x ≤ 0x7e) → 0x20 ≤ extra → extra ≤ 0x7e →
        w.write_string_scrolls (bs ++ [extra]) = 1
      ∧ (w.write_string (bs ++ [extra])).buffer.chars (BUFFER_HEIGHT - 1) 0
          = ⟨extra, w.color_code⟩
      ∧ (w.write_string (bs ++ [extra])).column_position = 1) := by
  constructor
  · intro w b hcol hb
    refine ⟨?_, write_byte_wrap w b hb (le_of_eq hcol.symm)⟩
    rw [Writer.scrollCount, if_neg hb, if_pos (le_of_eq hcol.symm)]
  · intro w bs extra hcol hlen hbs hex1 hex2
    obtain ⟨h1, h2, h3, _, _⟩ := write_string_printable bs w hbs (by omega)
    have hw1col : (w.write_string bs).column_position = BUFFER_WIDTH := by
      rw [h1, hcol, hlen]
      omega
    have hexne : extra ≠ 10 := by omega
    have hge : BUFFER_WIDTH ≤ (w.write_string bs).column_position :=
      le_of_eq hw1col.symm
    have hwsplit : w.write_string (bs ++ [extra])
        = (w.write_string bs).write_byte extra := by
      rw [write_string_append bs [extra] w]
      simp only [Writer.write_string]
      rw [if_pos (Or.inl ⟨hex1, hex2⟩)]
    refine ⟨?_, ?_, ?_⟩
    · have hsc1 : (w.write_string bs).scrollCount extra = 1 := by
        rw [Writer.scrollCount, if_neg hexne, if_pos hge]
      have hstep : (w.write_string bs).write_string_scrolls [extra] = 1 := by
        simp only [Writer.write_string_scrolls]
        rw [if_pos (Or.inl ⟨hex1, hex2⟩), hsc1]
      rw [write_string_scrolls_append bs [extra] w, h3, hstep]
    · rw [hwsplit, write_byte_wrap _ extra hexne hge]
      simp [h2]
    · rw [hwsplit, write_byte_wrap _ extra hexne hge]

theorem write_byte_at_width_scrolls_once_witness :
    (writerAtWidth.scrollCount 65 = 1
      ∧ writerAtWidth.write_byte 65 = { writerAtWidth.new_line with
          buffer := (writerAtWidth.new_line).buffer.write (BUFFER_HEIGHT - 1) 0
            ⟨65, writerAtWidth.color_code⟩,
          column_position := 1 })
  ∧ ((WRITER blankBuffer).write_string_scrolls (List.replicate 80 65 ++ [66]) = 1
      ∧ ((WRITER blankBuffer).write_string
            (List.replicate 80 65 ++ [66])).buffer.chars (BUFFER_HEIGHT - 1) 0
          = ⟨66, (WRITER blankBuffer).color_code⟩
      ∧ ((WRITER blankBuffer).write_string
            (List.replicate 80 65 ++ [66])).column_position = 1) :=
  ⟨write_byte_at_width_scrolls_once.1 writerAtWidth 65 rfl (by decide),
   write_byte_at_width_scrolls_once.2 (WRITER blankBuffer) (List.replicate 80 65) 66
     rfl (by decide) (by decide) (by decide) (by decide)⟩

/-- C2: after any single scroll, every row `r ≤ height − 2` equals the
pre-scroll contents of row `r + 1`, and the last row consists entirely of
blank cells (space character, the writer's current color). -/
theorem new_line_shifts_rows_and_blanks_last (w : Writer) :
    (∀ r c, r ≤ BUFFER_HEIGHT - 2 → c < BUFFER_WIDTH →
      (w.new_line).buffer.chars r c = w.buffer.chars (r + 1) c)
  ∧ (∀ c, c < BUFFER_WIDTH →
      (w.new_line).buffer.chars (BUFFER_HEIGHT - 1) c = ⟨32, w.color_code⟩) := by
  constructor
  · intro r c hr hc
    rw [new_line_chars]
    simp only [BUFFER_HEIGHT, BUFFER_WIDTH] at hr hc ⊢
    split_ifs <;> first | rfl | omega
  · intro c hc
    rw [new_line_chars, if_pos ⟨rfl, hc⟩]

theorem new_line_shifts_rows_and_blanks_last_witness :
    ((writerAt79.new_line).buffer.chars 0 0 = writerAt79.buffer.chars 1 0)
  ∧ ((writerAt79.new_line).buffer.chars (BUFFER_HEIGHT - 1) 0
      = ⟨32, writerAt79.color_code⟩) :=
  ⟨(new_line_shifts_rows_and_blanks_last writerAt79).1 0 0 (by decide) (by decide),
   (new_line_shifts_rows_and_blanks_last writerAt79).2 0 (by decide)⟩

/-- C3: for every writer state, writing the line-feed byte resets the
column to 0 and performs exactly one scroll, writing no character cell of
its own (it is exactly `new_line`). -/
theorem write_byte_linefeed (w : Writer) :
    w.write_byte 10 = w.new_line
  ∧ (w.write_byte 10).column_position = 0
  ∧ w.scrollCount 10 = 1 :=
  ⟨write_byte_newline w,
   by rw [write_byte_newline, new_line_column], rfl⟩

/-- C4: `write_string` rejects nothing (the `fmt::Write` path returns
`Ok(())`); every byte outside printable ASCII `0x20–0x7E` that is not a
line feed is emitted as the placeholder `0xfe` — the cell actually stored
holds `0xfe`, never the original byte — while printable bytes and line
feeds are forwarded to `write_byte` unchanged. -/
theorem write_string_substitution (w : Writer) (b : Nat) (rest : List Nat) :
    (w.write_str (b :: rest)).2 = Except.ok ()
  ∧ (¬ (0x20 ≤ b ∧ b ≤ 0x7e) → b ≠ 10 →
        w.write_string (b :: rest) = (w.write_byte 0xfe).write_string rest
      ∧ (w.write_byte 0xfe).buffer.chars (BUFFER_HEIGHT - 1)
          (if BUFFER_WIDTH ≤ w.column_position then 0 else w.column_position)
        = ⟨0xfe, w.color_code⟩)
  ∧ ((0x20 ≤ b ∧ b ≤ 0x7e) ∨ b = 10 →
        w.write_string (b :: rest) = (w.write_byte b).write_string rest) := by
  refine ⟨rfl, ?_, ?_⟩
  · intro h1 h2
    refine ⟨?_, write_byte_stores w 0xfe (by decide)⟩
    simp only [Writer.write_string]
    rw [if_neg (by omega)]
  · intro h
    simp only [Writer.write_string]
    rw [if_pos h]

theorem write_string_substitution_witness :
    ((WRITER blankBuffer).write_string [0]
        = ((WRITER blankBuffer).write_byte 0xfe).write_string [])
  ∧ (((WRITER blankBuffer).write_byte 0xfe).buffer.chars (BUFFER_HEIGHT - 1)
        (if BUFFER_WIDTH ≤ (WRITER blankBuffer).column_position then 0
         else (WRITER blankBuffer).column_position)
      = ⟨0xfe, (WRITER blankBuffer).color_code⟩)
  ∧ ((WRITER blankBuffer).write_string [72]
        = ((WRITER blankBuffer).write_byte 72).write_string []) :=
  ⟨((write_string_substitution (WRITER blankBuffer) 0 []).2.1
      (by decide) (by decide)).1,
   ((write_string_substitution (WRITER blankBuffer) 0 []).2.1
      (by decide) (by decide)).2,
   (write_string_substitution (WRITER blankBuffer) 72 []).2.2
      (Or.inl (by decide))⟩

/-- C5: writing a sequence of printable ASCII bytes of length `n < 80`
from column 0 places each byte unchanged, in order, at (last row, column
i) with the writer's current color, and leaves the column equal to `n`. -/
theorem write_string_printable_placement (w : Writer) (bs : List Nat)
    (hcol : w.column_position = 0)
    (hb : ∀ x ∈ bs, 0x20 ≤ x ∧ x ≤ 0x7e)
    (hlen : bs.length < BUFFER_WIDTH) :
    (∀ i, i < bs.length →
      (w.write_string bs).buffer.chars (BUFFER_HEIGHT - 1) i
        = ⟨bs.getD i 0, w.color_code⟩)
  ∧ (w.write_string bs).column_position = bs.length := by
  obtain ⟨h1, _, _, h4, _⟩ := write_string_printable bs w hb (by omega)
  constructor
  · intro i hi
    have h := h4 i hi
    rw [hcol] at h
    simpa using h
  · rw [h1, hcol]
    omega

theorem write_string_printable_placement_witness :
    (((WRITER blankBuffer).write_string [72, 73]).buffer.chars (BUFFER_HEIGHT - 1) 0
      = ⟨[72, 73].getD 0 0, (WRITER blankBuffer).color_code⟩)
  ∧ ((WRITER blankBuffer).write_string [72, 73]).column_position = [72, 73].length :=
  ⟨(write_string_printable_placement (WRITER blankBuffer) [72, 73]
      rfl (by decide) (by decide)).1 0 (by decide),
   (write_string_printable_placement (WRITER blankBuffer) [72, 73]
      rfl (by decide) (by decide)).2⟩

/-- C6, counterexample to the claim as stated: the writer with cursor at
column 79 satisfies `column < 80`, yet after one `write_byte` of a
printable byte the column is 80, so `column < width` is not preserved. -/
theorem column_lt_width_not_preserved :
    writerAt79.column_position < BUFFER_WIDTH
  ∧ ¬ ((writerAt79.write_byte 65).column_position < BUFFER_WIDTH) := by
  constructor
  · decide
  · decide

/-- C6 (amended): the invariant `0 ≤ column ≤ width` holds for the
initial `WRITER` state and is preserved by `write_byte`, `write_string`
and the scroll; the strict bound `column < width` is restored only at the
start of the next `write_byte`, not at the end of the current one. -/
theorem column_le_width_invariant (bb : Buffer) (w : Writer) (b : Nat)
    (s : List Nat) (h : w.column_position ≤ BUFFER_WIDTH) :
    (WRITER bb).column_position ≤ BUFFER_WIDTH
  ∧ (w.write_byte b).column_position ≤ BUFFER_WIDTH
  ∧ (w.write_string s).column_position ≤ BUFFER_WIDTH
  ∧ (w.new_line).column_position ≤ BUFFER_WIDTH :=
  ⟨Nat.zero_le _, column_le_width_write_byte w b h,
   column_le_width_write_string s w h,
   by rw [new_line_column]; exact Nat.zero_le _⟩

theorem column_le_width_invariant_witness :
    (WRITER blankBuffer).column_position ≤ BUFFER_WIDTH
  ∧ (writerAt79.write_byte 65).column_position ≤ BUFFER_WIDTH
  ∧ (writerAt79.write_string [72, 10]).column_position ≤ BUFFER_WIDTH
  ∧ (writerAt79.new_line).column_position ≤ BUFFER_WIDTH :=
  column_le_width_invariant blankBuffer writerAt79 65 [72, 10] (by decide)

/-- C7: `ColorCode::new(foreground, background)` packs the two 4-bit
color codes as `(background << 4) | foreground` — equivalently
`16 * background + foreground`, always below 256 so the `u8` truncation
is the identity — and `ColorCode::new(Yellow, Black)` is `0x0E`. -/
theorem colorCode_new_packs :
    (∀ fg bg : Color, (ColorCode.new fg bg).val = ((bg.code <<< 4) ||| fg.code)
      ∧ (ColorCode.new fg bg).val = 16 * bg.code + fg.code
      ∧ (ColorCode.new fg bg).val < 256)
  ∧ ColorCode.new Color.Yellow Color.Black = ⟨0x0E⟩ := by
  exact ⟨by decide, by decide⟩

/-- C8: every operation of the driver is infallible: `write_str` (the
`fmt::Write` impl) returns `Ok(())` for every writer state and every
input, merely delegating to the total function `write_string`. -/
theorem write_str_infallible (w : Writer) (s : List Nat) :
    w.write_str s = (w.write_string s, Except.ok ())
  ∧ (w.write_str s).2 = Except.ok () :=
  ⟨rfl, rfl⟩

/-- C9: `write_byte` performs no placeholder substitution: for every
non-line-feed byte, including bytes outside `0x20–0x7E`, the cell stored
holds exactly that byte with the current color. -/
theorem write_byte_no_substitution (w : Writer) (b : Nat) (hb : b ≠ 10) :
    (w.write_byte b).buffer.chars (BUFFER_HEIGHT - 1)
        (if BUFFER_WIDTH ≤ w.column_position then 0 else w.column_position)
      = ⟨b, w.color_code⟩ :=
  write_byte_stores w b hb

theorem write_byte_no_substitution_witness :
    ((WRITER blankBuffer).write_byte 1).buffer.chars (BUFFER_HEIGHT - 1)
        (if BUFFER_WIDTH ≤ (WRITER blankBuffer).column_position then 0
         else (WRITER blankBuffer).column_position)
      = ⟨1, (WRITER blankBuffer).color_code⟩ :=
  write_byte_no_substitution (WRITER blankBuffer) 1 (by decide)

/-- C10: under the invariant `column ≤ width`, every grid index issued by
`write_byte`, `new_line` and `clear_row` has row `< 25` and column
`< 80`. -/
theorem grid_accesses_in_bounds (w : Writer) (b : Nat)
    (h : w.column_position ≤ BUFFER_WIDTH) :
    (∀ p ∈ w.write_byte_accesses b, p.1 < BUFFER_HEIGHT ∧ p.2 < BUFFER_WIDTH)
  ∧ (∀ p ∈ new_line_accesses, p.1 < BUFFER_HEIGHT ∧ p.2 < BUFFER_WIDTH)
  ∧ (∀ p ∈ clear_row_accesses (BUFFER_HEIGHT - 1),
      p.1 < BUFFER_HEIGHT ∧ p.2 < BUFFER_WIDTH) := by
  have hclear : ∀ row, row < BUFFER_HEIGHT →
      ∀ p ∈ clear_row_accesses row, p.1 < BUFFER_HEIGHT ∧ p.2 < BUFFER_WIDTH := by
    intro row hrow p hp
    simp only [clear_row_accesses, List.mem_map, List.mem_range] at hp
    obtain ⟨col, hcol, rfl⟩ := hp
    exact ⟨hrow, hcol⟩
  have hnl : ∀ p ∈ new_line_accesses, p.1 < BUFFER_HEIGHT ∧ p.2 < BUFFER_WIDTH := by
    intro p hp
    simp only [new_line_accesses, List.mem_append, List.mem_flatMap,
      List.mem_range, List.mem_cons, List.not_mem_nil, or_false] at hp
    rcases hp with ⟨row, hrow, col, hcol, hp⟩ | hp
    · rw [List.mem_range'_1] at hrow
      simp only [BUFFER_HEIGHT, BUFFER_WIDTH] at hrow hcol ⊢
      rcases hp with rfl | rfl <;> constructor <;> simp <;> omega
    · exact hclear _ (by simp [BUFFER_HEIGHT]) p hp
  refine ⟨?_, hnl, hclear _ (by simp [BUFFER_HEIGHT])⟩
  intro p hp
  rw [Writer.write_byte_accesses] at hp
  split_ifs at hp with h1 h2
  · exact hnl p hp
  · rcases List.mem_append.mp hp with hp | hp
    · exact hnl p hp
    · simp only [List.mem_singleton] at hp
      subst hp
      exact ⟨by simp [BUFFER_HEIGHT], by simp [BUFFER_WIDTH]⟩
  · simp only [List.mem_singleton] at hp
    subst hp
    refine ⟨by simp [BUFFER_HEIGHT], ?_⟩
    show w.column_position < BUFFER_WIDTH
    omega

theorem grid_accesses_in_bounds_witness :
    ((24 : Nat), (0 : Nat)).1 < BUFFER_HEIGHT
  ∧ ((24 : Nat), (0 : Nat)).2 < BUFFER_WIDTH :=
  (grid_accesses_in_bounds (WRITER blankBuffer) 65 (by decide)).1
    (24, 0) (by decide)

end VgaBuffer
